import Mathlib

/-!
Verification of the R2DT pipeline orchestrator (`r2dt.py`).

The development shallowly embeds the parts of the source that the
specification talks about:

* the cascading classification pipeline of `draw` (stage bookkeeping over
  sets of sequence ids, lines 206-376 of the source);
* the row-filtering policies of `get_ribotyper_output` (lines 35-64);
* the metadata aggregation of `organise_metadata` (lines 791-818);
* the thumbnail generator `generate_thumbnail` (lines 753-788).

Sequence ids are an opaque type `α` with decidable equality; text is
modelled as `List Char`.  External collaborators (the ribotyper
classifier, the renderer, the colorhash library) appear as function
parameters at their interfaces.
-/

/-! ## Cascade orchestrator (`draw`, lines 206-376)

Each stage of the cascade is abstracted by an oracle
`Finset α → Finset α`: given the working subset written to the stage's
fasta file, it yields the set of sequence ids recorded in the stage's
`hits.txt` (the composition of the external classifier with `get_hits`).
`draw` runs the first (Rfam) stage unconditionally on the full input and
guards every later stage by `if subset:`; a skipped stage leaves no
`hits.txt`, so `get_hits` contributes the empty set for it. -/

/-- Outcome of one cascade stage: whether the classifier was invoked and
which sequence ids the stage claimed. -/
structure StageResult (α : Type) where
  invoked : Bool
  hits : Finset α
  deriving DecidableEq

variable {α : Type} [DecidableEq α]

/-- The guarded tail of the cascade in `draw` (lines 260-362): before each
stage the working subset `all_seq_ids.difference(hits)` is recomputed; the
stage runs only if it is nonempty, and its hits are folded into the
accumulated claimed set. -/
def runStages (allIds : Finset α) :
    List (Finset α → Finset α) → Finset α → List (StageResult α)
  | [], _ => []
  | g :: gs, claimed =>
    if (allIds \ claimed).Nonempty then
      StageResult.mk true (g (allIds \ claimed)) ::
        runStages allIds gs (claimed ∪ g (allIds \ claimed))
    else
      StageResult.mk false ∅ :: runStages allIds gs claimed

/-- The whole cascade of `draw` without a forced template: the first
(Rfam) stage is invoked unconditionally on the full input file
(lines 235-258, before any emptiness check), every later stage runs
through the guarded loop. -/
def drawCascade (allIds : Finset α) (first : Finset α → Finset α)
    (rest : List (Finset α → Finset α)) : List (StageResult α) :=
  StageResult.mk true (first allIds) :: runStages allIds rest (first allIds)

/-- Union of all hits claimed by a list of stage results. -/
def unionHits : List (StageResult α) → Finset α
  | [] => ∅
  | r :: rs => r.hits ∪ unionHits rs

theorem length_runStages (allIds : Finset α)
    (gs : List (Finset α → Finset α)) (claimed : Finset α) :
    (runStages allIds gs claimed).length = gs.length := by
  induction gs generalizing claimed with
  | nil => rfl
  | cons g gs ih =>
    by_cases h : (allIds \ claimed).Nonempty <;>
      simp [runStages, h, ih]

/-- Every stage's hit set is contained in the working set it started
from, provided all stage oracles only claim ids they were given. -/
theorem runStages_hits_subset (allIds : Finset α)
    (gs : List (Finset α → Finset α)) (claimed : Finset α)
    (hg : ∀ g ∈ gs, ∀ s, g s ⊆ s) :
    ∀ r ∈ runStages allIds gs claimed, r.hits ⊆ allIds \ claimed := by
  induction gs generalizing claimed with
  | nil => simp [runStages]
  | cons g gs ih =>
    intro r hr
    by_cases h : (allIds \ claimed).Nonempty
    · simp only [runStages, if_pos h, List.mem_cons] at hr
      rcases hr with rfl | hr
      · exact hg g (List.mem_cons_self g gs) _
      · refine (ih _ (fun g' hg' => hg g' (List.mem_cons_of_mem _ hg')) r hr).trans ?_
        exact Finset.sdiff_subset_sdiff le_rfl Finset.subset_union_left
    · simp only [runStages, if_neg h, List.mem_cons] at hr
      rcases hr with rfl | hr
      · simp
      · exact ih _ (fun g' hg' => hg g' (List.mem_cons_of_mem _ hg')) r hr

/-- The hit sets produced by the guarded loop are pairwise disjoint. -/
theorem runStages_pairwise_disjoint (allIds : Finset α)
    (gs : List (Finset α → Finset α)) (claimed : Finset α)
    (hg : ∀ g ∈ gs, ∀ s, g s ⊆ s) :
    List.Pairwise (fun r₁ r₂ => Disjoint r₁.hits r₂.hits)
      (runStages allIds gs claimed) := by
  induction gs generalizing claimed with
  | nil => simp [runStages]
  | cons g gs ih =>
    have hgs : ∀ g' ∈ gs, ∀ s, g' s ⊆ s :=
      fun g' hg' => hg g' (List.mem_cons_of_mem _ hg')
    by_cases h : (allIds \ claimed).Nonempty
    · simp only [runStages, if_pos h]
      refine List.Pairwise.cons ?_ (ih _ hgs)
      intro r hr
      have hsub := runStages_hits_subset allIds gs
        (claimed ∪ g (allIds \ claimed)) hgs r hr
      have hdisj : Disjoint (allIds \ (claimed ∪ g (allIds \ claimed)))
          (g (allIds \ claimed)) :=
        Finset.sdiff_disjoint.mono_right Finset.subset_union_right
      exact (hdisj.mono_left hsub).symm
    · simp only [runStages, if_neg h]
      refine List.Pairwise.cons ?_ (ih _ hgs)
      intro r _
      simp

theorem unionHits_subset (allIds : Finset α)
    (gs : List (Finset α → Finset α)) (claimed : Finset α)
    (hg : ∀ g ∈ gs, ∀ s, g s ⊆ s) :
    unionHits (runStages allIds gs claimed) ⊆ allIds \ claimed := by
  induction gs generalizing claimed with
  | nil => simp [runStages, unionHits]
  | cons g gs ih =>
    have hgs : ∀ g' ∈ gs, ∀ s, g' s ⊆ s :=
      fun g' hg' => hg g' (List.mem_cons_of_mem _ hg')
    by_cases h : (allIds \ claimed).Nonempty
    · simp only [runStages, if_pos h, unionHits]
      refine Finset.union_subset (hg g (List.mem_cons_self g gs) _) ?_
      exact (ih _ hgs).trans
        (Finset.sdiff_subset_sdiff le_rfl Finset.subset_union_left)
    · simp only [runStages, if_neg h, unionHits]
      simpa using ih _ hgs

/-- C1: partition property of the cascade.  If every stage oracle claims
only ids from the subset it is handed (the classifier interface
contract), then the union of all stages' claimed ids together with the
final unclaimed remainder is exactly the input id set, and no id is
claimed by two distinct stages. -/
theorem draw_partition (allIds : Finset α) (first : Finset α → Finset α)
    (rest : List (Finset α → Finset α))
    (hf : ∀ s, first s ⊆ s) (hr : ∀ g ∈ rest, ∀ s, g s ⊆ s) :
    unionHits (drawCascade allIds first rest) ∪
        (allIds \ unionHits (drawCascade allIds first rest)) = allIds ∧
      List.Pairwise (fun r₁ r₂ => Disjoint r₁.hits r₂.hits)
        (drawCascade allIds first rest) := by
  constructor
  · refine Finset.union_sdiff_of_subset ?_
    simp only [drawCascade, unionHits]
    refine Finset.union_subset (hf allIds) ?_
    exact (unionHits_subset allIds rest (first allIds) hr).trans
      (Finset.sdiff_subset)
  · simp only [drawCascade]
    refine List.Pairwise.cons ?_ (runStages_pairwise_disjoint allIds rest (first allIds) hr)
    intro r hr'
    have hsub := runStages_hits_subset allIds rest (first allIds) hr r hr'
    exact ((Finset.sdiff_disjoint).mono_left hsub).symm

/-- Witness for C1 on a concrete three-id input with two claiming
stages. -/
theorem draw_partition_witness :
    unionHits (drawCascade ({1, 2, 3} : Finset ℕ) (fun s => s ∩ {1})
          [fun s => s ∩ {2}]) ∪
        (({1, 2, 3} : Finset ℕ) \
          unionHits (drawCascade ({1, 2, 3} : Finset ℕ) (fun s => s ∩ {1})
            [fun s => s ∩ {2}])) = {1, 2, 3} ∧
      List.Pairwise (fun r₁ r₂ => Disjoint r₁.hits r₂.hits)
        (drawCascade ({1, 2, 3} : Finset ℕ) (fun s => s ∩ {1})
          [fun s => s ∩ {2}]) :=
  draw_partition _ _ _ (fun _ => Finset.inter_subset_left)
    (by
      intro g hg s
      rw [List.mem_singleton] at hg
      subst hg
      exact Finset.inter_subset_left)

theorem runStages_append (allIds : Finset α)
    (gs₁ gs₂ : List (Finset α → Finset α)) (claimed : Finset α) :
    runStages allIds (gs₁ ++ gs₂) claimed =
      runStages allIds gs₁ claimed ++
        runStages allIds gs₂
          (claimed ∪ unionHits (runStages allIds gs₁ claimed)) := by
  induction gs₁ generalizing claimed with
  | nil => simp [runStages, unionHits]
  | cons g gs ih =>
    rw [List.cons_append]
    by_cases h : (allIds \ claimed).Nonempty
    · simp only [runStages, if_pos h, unionHits, List.cons_append]
      rw [ih, Finset.union_assoc]
    · simp only [runStages, if_neg h, unionHits, List.cons_append]
      rw [ih, Finset.empty_union]

/-- When the working set is already empty, every remaining stage is
skipped: no classifier invocation, no hits. -/
theorem runStages_skip_all (allIds : Finset α)
    (gs : List (Finset α → Finset α)) (claimed : Finset α)
    (h : allIds \ claimed = ∅) :
    runStages allIds gs claimed =
      gs.map (fun _ => StageResult.mk false ∅) := by
  induction gs with
  | nil => rfl
  | cons g gs ih =>
    have hne : ¬(allIds \ claimed).Nonempty := by
      simp [h]
    simp [runStages, if_neg hne, ih]

/-- C2: short-circuit property of the cascade in `draw`.  If, after the
unconditional first stage and the stages `gs₁`, the working set
(input ids minus the accumulated hits) is empty, then every stage of the
remaining tail `gs₂` is skipped: it is never invoked and claims
nothing. -/
theorem draw_short_circuit (allIds : Finset α) (first : Finset α → Finset α)
    (gs₁ gs₂ : List (Finset α → Finset α))
    (h : allIds \ (first allIds ∪
        unionHits (runStages allIds gs₁ (first allIds))) = ∅) :
    (drawCascade allIds first (gs₁ ++ gs₂)).drop (1 + gs₁.length) =
      gs₂.map (fun _ => StageResult.mk false ∅) := by
  simp only [drawCascade, runStages_append]
  rw [Nat.add_comm 1 gs₁.length, List.drop_succ_cons,
    ← length_runStages allIds gs₁ (first allIds), List.drop_left]
  exact runStages_skip_all allIds gs₂ _ h

/-- Witness for C2: a single input id claimed by the first stage; the one
remaining stage is skipped. -/
theorem draw_short_circuit_witness :
    (drawCascade ({1} : Finset ℕ) (fun s => s)
        ([] ++ [fun s => s])).drop
        (1 + List.length ([] : List (Finset ℕ → Finset ℕ))) =
      [StageResult.mk false (∅ : Finset ℕ)] :=
  draw_short_circuit ({1} : Finset ℕ) (fun s => s) []
    [fun s => s] (by decide)

/-- C10: in `draw` without a forced template the first (Rfam) stage is
always invoked — on the full input id set, with no emptiness guard, so
also when the input holds zero sequence ids — while every stage of the
guarded loop is invoked exactly when its working subset is nonempty. -/
theorem draw_first_stage_unconditional (allIds : Finset α)
    (first : Finset α → Finset α) (rest : List (Finset α → Finset α))
    (g : Finset α → Finset α) (gs : List (Finset α → Finset α))
    (claimed : Finset α) :
    (drawCascade allIds first rest).head? =
        some (StageResult.mk true (first allIds)) ∧
      (runStages allIds (g :: gs) claimed).head? =
        some (if (allIds \ claimed).Nonempty then
            StageResult.mk true (g (allIds \ claimed))
          else StageResult.mk false ∅) := by
  constructor
  · rfl
  · by_cases h : (allIds \ claimed).Nonempty <;>
      simp [runStages, h]

/-! ## Text utilities

Lines of text are modelled as `List Char`.  `startsWithSeg l p` holds
when `p` is an initial segment of `l` (the shell regex `^p`);
`containsSeg l p` holds when `p` occurs as a contiguous segment of `l`
(plain `grep p` / Python's `in`). -/

def startsWithSeg : List Char → List Char → Bool
  | _, [] => true
  | [], _ :: _ => false
  | c :: cs, p :: ps => c == p && startsWithSeg cs ps

def containsSeg : List Char → List Char → Bool
  | [], pat => startsWithSeg [] pat
  | c :: rest, pat => startsWithSeg (c :: rest) pat || containsSeg rest pat

/-! ## Stage Runner row filter (`get_ribotyper_output`, lines 35-64)

After running ribotyper, the function filters the `.ribotyper.long.out`
report through a shell pipeline into `hits.txt`:

* without `--skip_ribovore_filters` (strict):
  `grep -v '^#' | grep -v MultipleHits | grep PASS`;
* with `--skip_ribovore_filters` (lenient):
  `grep -v '^#' | grep -v NoHits`.

(The final `awk` step only projects columns 2, 8, 3 of each retained
row; it does not change which rows are retained, which is all the claims
are about.) -/

def hashTok : List Char := "#".toList

def passTok : List Char := "PASS".toList

def multipleHitsTok : List Char := "MultipleHits".toList

def noHitsTok : List Char := "NoHits".toList

/-- Whether one report line survives the filter pipeline of
`get_ribotyper_output`; `skipRibovoreFilters` mirrors the
`--skip_ribovore_filters` flag. -/
def ribotyperKeep (skipRibovoreFilters : Bool) (line : List Char) : Bool :=
  if skipRibovoreFilters then
    !(startsWithSeg line hashTok) && !(containsSeg line noHitsTok)
  else
    !(startsWithSeg line hashTok) && !(containsSeg line multipleHitsTok) &&
      containsSeg line passTok

/-- The rows of `hits.txt` produced by `get_ribotyper_output` from the
raw report lines. -/
def ribotyperRows (skipRibovoreFilters : Bool)
    (report : List (List Char)) : List (List Char) :=
  report.filter (ribotyperKeep skipRibovoreFilters)

/-- C3: the quality-filter flag selects exactly two row policies.  For a
data row (one not starting with `#`): the strict policy retains it iff
it is flagged `PASS` and not flagged `MultipleHits`; the lenient policy
retains it iff it is not flagged `NoHits` (so a `MultipleHits` row
survives lenient filtering and a `NoHits` row does not). -/
theorem ribotyper_filter_policy (report : List (List Char))
    (line : List Char) (hmem : line ∈ report)
    (hrow : startsWithSeg line hashTok = false) :
    (line ∈ ribotyperRows false report ↔
        containsSeg line passTok = true ∧
          containsSeg line multipleHitsTok = false) ∧
      (line ∈ ribotyperRows true report ↔
        containsSeg line noHitsTok = false) := by
  constructor
  · rw [ribotyperRows, List.mem_filter]
    simp [ribotyperKeep, hmem, hrow, and_comm]
  · rw [ribotyperRows, List.mem_filter]
    simp [ribotyperKeep, hmem, hrow]

/-- Witness for C3: the scenario rows.  `seq1<tab>tmplA<tab>PASS` is a
data row, is retained by the strict policy, and the theorem's
equivalences evaluate as the scenario demands on it. -/
theorem ribotyper_filter_policy_witness :
    ("seq1\ttmplA\tPASS".toList ∈
        ["seq1\ttmplA\tPASS".toList, "seq1\ttmplB\tMultipleHits".toList,
          "seq2\t-\tNoHits".toList]) ∧
      startsWithSeg "seq1\ttmplA\tPASS".toList hashTok = false ∧
      (("seq1\ttmplA\tPASS".toList ∈
          ribotyperRows false
            ["seq1\ttmplA\tPASS".toList, "seq1\ttmplB\tMultipleHits".toList,
              "seq2\t-\tNoHits".toList] ↔
          containsSeg "seq1\ttmplA\tPASS".toList passTok = true ∧
            containsSeg "seq1\ttmplA\tPASS".toList multipleHitsTok = false) ∧
        ("seq1\ttmplA\tPASS".toList ∈
          ribotyperRows true
            ["seq1\ttmplA\tPASS".toList, "seq1\ttmplB\tMultipleHits".toList,
              "seq2\t-\tNoHits".toList] ↔
          containsSeg "seq1\ttmplA\tPASS".toList noHitsTok = false)) :=
  ⟨by decide, by decide,
    ribotyper_filter_policy _ _ (by decide) (by decide)⟩

/-! ## Metadata aggregator (`organise_metadata`, lines 791-818)

Python's `str.replace(pat, rep)` replaces every occurrence of `pat`,
scanning left to right and continuing after each replacement.  The
recursion consumes at least one character per step, so it is phrased
with a fuel argument instantiated with the length of the text; the
source only ever replaces non-empty patterns. -/

def replaceAllAux : Nat → List Char → List Char → List Char → List Char
  | 0, l, _, _ => l
  | _ + 1, [], _, _ => []
  | fuel + 1, c :: rest, pat, rep =>
    if !pat.isEmpty && startsWithSeg (c :: rest) pat then
      rep ++ replaceAllAux fuel ((c :: rest).drop pat.length) pat rep
    else
      c :: replaceAllAux fuel rest pat rep

def replaceAll (l pat rep : List Char) : List Char :=
  replaceAllAux l.length l pat rep

def failTok : List Char := "FAIL".toList

def gtrnadbTok : List Char := "gtrnadb".toList

def crwTok : List Char := "crw".toList

def rfamTok : List Char := "rfam".toList

def rf00005Tok : List Char := "RF00005".toList

def ribovisionLsuTok : List Char := "ribovision-lsu".toList

def ribovisionSsuTok : List Char := "ribovision-ssu".toList

def rnasepTok : List Char := "rnasep".toList

def gtrnadbLabel : List Char := "GtRNAdb".toList

def crwLabel : List Char := "CRW".toList

def rfamLabel : List Char := "Rfam".toList

def ribovisionLabel : List Char := "RiboVision".toList

def rnasepLabel : List Char := "RNAse P Database".toList

/-- The per-line relabelling of `organise_metadata` (lines 804-817): the
branch taken depends on which library name occurs in the stage folder's
path, and rewrites the raw `PASS`/`FAIL` status tokens into the
library's source label. -/
def relabelLine (folder line : List Char) : List Char :=
  if containsSeg folder gtrnadbTok then
    replaceAll line passTok gtrnadbLabel
  else if containsSeg folder crwTok then
    replaceAll (replaceAll line passTok crwLabel) failTok crwLabel
  else if containsSeg folder rfamTok || containsSeg folder rf00005Tok then
    replaceAll (replaceAll line passTok rfamLabel) failTok rfamLabel
  else if containsSeg folder ribovisionLsuTok ||
      containsSeg folder ribovisionSsuTok then
    replaceAll (replaceAll line passTok ribovisionLabel) failTok
      ribovisionLabel
  else if containsSeg folder rnasepTok then
    replaceAll (replaceAll line passTok rnasepLabel) failTok rnasepLabel
  else line

/-- `organise_metadata` (lines 791-818): concatenate the relabelled
`hits.txt` lines of each result folder, in the order the folder list is
given.  `hitsOf` yields a folder's `hits.txt` lines (empty for a folder
whose `hits.txt` does not exist, matching the `continue`). -/
def organise_metadata (hitsOf : List Char → List (List Char)) :
    List (List Char) → List (List Char)
  | [] => []
  | folder :: rest =>
    (hitsOf folder).map (relabelLine folder) ++ organise_metadata hitsOf rest

def crwFolderName : List Char := "crw".toList

def ribovisionSsuFolderName : List Char := "ribovision-ssu".toList

def ribovisionLsuFolderName : List Char := "ribovision-lsu".toList

def rfamFolderName : List Char := "rfam".toList

def gtrnadbFolderName : List Char := "gtrnadb".toList

def rfamTrnaFolderName : List Char := "RF00005".toList

def rnasepFolderName : List Char := "rnasep".toList

/-- The `result_folders` list built in `draw` (lines 365-373), in source
order, identified by each folder's basename.  This is the order in which
`draw` hands the stage folders to `organise_metadata`. -/
def resultFolders : List (List Char) :=
  [crwFolderName, ribovisionSsuFolderName, ribovisionLsuFolderName,
    rfamFolderName, gtrnadbFolderName, rfamTrnaFolderName, rnasepFolderName]

/-- The order in which `draw` actually invokes the stages (lines
235-362): Rfam, RiboVision SSU, CRW, RiboVision LSU, RNAse P, GtRNAdb,
Rfam tRNA. -/
def cascadeStageFolders : List (List Char) :=
  [rfamFolderName, ribovisionSsuFolderName, crwFolderName,
    ribovisionLsuFolderName, rnasepFolderName, gtrnadbFolderName,
    rfamTrnaFolderName]

/-- Counterexample to C4: the folder list `draw` passes to
`organise_metadata` is not the cascade invocation order — aggregation
starts with the curated-rRNA (crw) folder while the cascade starts with
the generic-family (rfam) stage — and on hit lists that record their
folder of origin the two orders produce different tables. -/
theorem organise_metadata_not_cascade_order :
    resultFolders.head? = some crwFolderName ∧
      cascadeStageFolders.head? = some rfamFolderName ∧
      resultFolders ≠ cascadeStageFolders ∧
      organise_metadata (fun f => [f]) resultFolders ≠
        organise_metadata (fun f => [f]) cascadeStageFolders := by
  refine ⟨rfl, rfl, by decide, by decide⟩

/-- C4 (amended): the Metadata Aggregator concatenates the per-stage hit
lists in the fixed folder order crw, ribovision-ssu, ribovision-lsu,
rfam, gtrnadb, RF00005, rnasep — a deterministic order, but not the
cascade's stage priority order. -/
theorem organise_metadata_fixed_order
    (hitsOf : List Char → List (List Char)) :
    organise_metadata hitsOf resultFolders =
      (hitsOf crwFolderName).map (relabelLine crwFolderName) ++
        (hitsOf ribovisionSsuFolderName).map
          (relabelLine ribovisionSsuFolderName) ++
        (hitsOf ribovisionLsuFolderName).map
          (relabelLine ribovisionLsuFolderName) ++
        (hitsOf rfamFolderName).map (relabelLine rfamFolderName) ++
        (hitsOf gtrnadbFolderName).map (relabelLine gtrnadbFolderName) ++
        (hitsOf rfamTrnaFolderName).map (relabelLine rfamTrnaFolderName) ++
        (hitsOf rnasepFolderName).map (relabelLine rnasepFolderName) := by
  simp [organise_metadata, resultFolders]

theorem startsWithSeg_length_le (l pat : List Char)
    (h : startsWithSeg l pat = true) : pat.length ≤ l.length := by
  induction l generalizing pat with
  | nil =>
    cases pat with
    | nil => simp
    | cons p ps => simp [startsWithSeg] at h
  | cons c cs ih =>
    cases pat with
    | nil => simp
    | cons p ps =>
      rw [startsWithSeg, Bool.and_eq_true] at h
      simpa [List.length_cons] using ih ps h.2

theorem startsWithSeg_append_self (a x : List Char) :
    startsWithSeg (a ++ x) a = true := by
  induction a with
  | nil => cases x <;> rfl
  | cons c cs ih => simp [startsWithSeg, ih]

theorem containsSeg_nil_pat (l : List Char) : containsSeg l [] = true := by
  cases l <;> rfl

theorem containsSeg_append_self (a x : List Char) :
    containsSeg (a ++ x) a = true := by
  cases a with
  | nil => simpa using containsSeg_nil_pat x
  | cons c cs =>
    have h := startsWithSeg_append_self (c :: cs) x
    rw [List.cons_append] at h
    rw [List.cons_append, containsSeg, h, Bool.true_or]

/-- A block whose characters all avoid the pattern's characters is
transparent to segment search: no occurrence can start inside it. -/
theorem containsSeg_append_of_disjoint (a x pat : List Char)
    (hp : pat ≠ []) (h : ∀ c ∈ a, c ∉ pat) :
    containsSeg (a ++ x) pat = containsSeg x pat := by
  induction a with
  | nil => simp
  | cons c a ih =>
    cases pat with
    | nil => exact absurd rfl hp
    | cons p ps =>
      have hc : (c == p) = false := by
        refine beq_eq_false_iff_ne.mpr fun hcp => ?_
        exact h c (List.mem_cons_self c a) (hcp ▸ List.mem_cons_self p ps)
      rw [List.cons_append, containsSeg, startsWithSeg, hc]
      simpa using ih fun c' hc' => h c' (List.mem_cons_of_mem _ hc')

/-- A match of the replacement output at the head reflects to a match of
the original text at the head, for any probe `q` made of the pattern's
characters (in particular for the pattern itself): replacement blocks
cannot begin such a match. -/
theorem startsWithSeg_replaceAllAux (pat rep : List Char) (hrep : rep ≠ [])
    (hd : ∀ c ∈ rep, c ∉ pat) :
    ∀ (fuel : Nat) (l q : List Char), (∀ c ∈ q, c ∈ pat) →
      startsWithSeg (replaceAllAux fuel l pat rep) q = true →
      startsWithSeg l q = true := by
  intro fuel
  induction fuel with
  | zero => intro l q _ h; simpa [replaceAllAux] using h
  | succ fuel ih =>
    intro l q hq h
    cases l with
    | nil => simpa [replaceAllAux] using h
    | cons c rest =>
      rw [replaceAllAux] at h
      by_cases hcond : (!pat.isEmpty && startsWithSeg (c :: rest) pat) = true
      · rw [if_pos hcond] at h
        cases q with
        | nil => rfl
        | cons a qs =>
          cases rep with
          | nil => exact absurd rfl hrep
          | cons r rs =>
            have hra : (r == a) = false := by
              refine beq_eq_false_iff_ne.mpr fun hr' => ?_
              exact hd r (List.mem_cons_self r rs)
                (hr' ▸ hq a (List.mem_cons_self a qs))
            rw [List.cons_append, startsWithSeg, hra] at h
            simp at h
      · rw [if_neg hcond] at h
        cases q with
        | nil => rfl
        | cons a qs =>
          rw [startsWithSeg, Bool.and_eq_true] at h
          have := ih rest qs (fun c' hc' => hq c' (List.mem_cons_of_mem _ hc')) h.2
          rw [startsWithSeg, Bool.and_eq_true]
          exact ⟨h.1, this⟩

/-- After replacing every occurrence of `pat` by a replacement sharing no
character with it, no occurrence of `pat` remains. -/
theorem containsSeg_replaceAllAux_self (pat rep : List Char)
    (hp : pat ≠ []) (hrep : rep ≠ []) (hd : ∀ c ∈ rep, c ∉ pat) :
    ∀ (fuel : Nat) (l : List Char), l.length ≤ fuel →
      containsSeg (replaceAllAux fuel l pat rep) pat = false := by
  intro fuel
  induction fuel with
  | zero =>
    intro l hl
    rw [Nat.le_zero, List.length_eq_zero] at hl
    subst hl
    cases pat with
    | nil => exact absurd rfl hp
    | cons p ps => rfl
  | succ fuel ih =>
    intro l hl
    cases l with
    | nil =>
      cases pat with
      | nil => exact absurd rfl hp
      | cons p ps => rfl
    | cons c rest =>
      rw [replaceAllAux]
      by_cases hcond : (!pat.isEmpty && startsWithSeg (c :: rest) pat) = true
      · rw [if_pos hcond]
        rw [containsSeg_append_of_disjoint rep _ pat hp hd]
        refine ih _ ?_
        have hplen : 1 ≤ pat.length := by
          cases pat with
          | nil => exact absurd rfl hp
          | cons p ps => simp
        calc ((c :: rest).drop pat.length).length
            = (c :: rest).length - pat.length := by rw [List.length_drop]
          _ ≤ (c :: rest).length - 1 := Nat.sub_le_sub_left hplen _
          _ ≤ fuel := by simpa [List.length_cons] using hl
      · rw [if_neg hcond]
        have hrest : containsSeg (replaceAllAux fuel rest pat rep) pat = false :=
          ih rest (by simpa [List.length_cons] using hl)
        have hstart :
            startsWithSeg (c :: replaceAllAux fuel rest pat rep) pat = false := by
          by_contra hcontra
          rw [Bool.not_eq_false] at hcontra
          have heq : replaceAllAux (fuel + 1) (c :: rest) pat rep =
              c :: replaceAllAux fuel rest pat rep := by
            rw [replaceAllAux, if_neg hcond]
          have := startsWithSeg_replaceAllAux pat rep hrep hd (fuel + 1)
            (c :: rest) pat (fun c' hc' => hc') (by rw [heq]; exact hcontra)
          have hpe : pat.isEmpty = false := by
            cases pat with
            | nil => exact absurd rfl hp
            | cons p ps => rfl
          rw [hpe] at hcond
          simp [this] at hcond
        rw [containsSeg, hstart, hrest]
        rfl

/-- If the pattern occurs, the replacement string occurs in the
output. -/
theorem containsSeg_replaceAllAux_rep (pat rep : List Char) (hp : pat ≠ []) :
    ∀ (fuel : Nat) (l : List Char), l.length ≤ fuel →
      containsSeg l pat = true →
      containsSeg (replaceAllAux fuel l pat rep) rep = true := by
  intro fuel
  induction fuel with
  | zero =>
    intro l hl hc
    rw [Nat.le_zero, List.length_eq_zero] at hl
    subst hl
    cases pat with
    | nil => exact absurd rfl hp
    | cons p ps => simp [containsSeg, startsWithSeg] at hc
  | succ fuel ih =>
    intro l hl hc
    cases l with
    | nil =>
      cases pat with
      | nil => exact absurd rfl hp
      | cons p ps => simp [containsSeg, startsWithSeg] at hc
    | cons c rest =>
      rw [replaceAllAux]
      by_cases hcond : (!pat.isEmpty && startsWithSeg (c :: rest) pat) = true
      · rw [if_pos hcond]
        exact containsSeg_append_self rep _
      · rw [if_neg hcond]
        have hpe : pat.isEmpty = false := by
          cases pat with
          | nil => exact absurd rfl hp
          | cons p ps => rfl
        have hstart : startsWithSeg (c :: rest) pat = false := by
          rw [hpe] at hcond
          simpa using hcond
        rw [containsSeg, hstart, Bool.false_or] at hc
        have := ih rest (by simpa [List.length_cons] using hl) hc
        rw [containsSeg, this, Bool.or_true]

/-- `str.replace` leaves text without the pattern unchanged. -/
theorem replaceAllAux_of_not_contains (pat rep : List Char) :
    ∀ (fuel : Nat) (l : List Char), containsSeg l pat = false →
      replaceAllAux fuel l pat rep = l := by
  intro fuel
  induction fuel with
  | zero => intro l _; rfl
  | succ fuel ih =>
    intro l hc
    cases l with
    | nil => rfl
    | cons c rest =>
      rw [containsSeg, Bool.or_eq_false_iff] at hc
      rw [replaceAllAux, if_neg (by simp [hc.1]), ih rest hc.2]

theorem replaceAll_of_not_contains (l pat rep : List Char)
    (h : containsSeg l pat = false) : replaceAll l pat rep = l :=
  replaceAllAux_of_not_contains pat rep l.length l h

theorem containsSeg_replaceAll_self (l pat rep : List Char)
    (hp : pat ≠ []) (hrep : rep ≠ []) (hd : ∀ c ∈ rep, c ∉ pat) :
    containsSeg (replaceAll l pat rep) pat = false :=
  containsSeg_replaceAllAux_self pat rep hp hrep hd l.length l le_rfl

theorem containsSeg_replaceAll_rep (l pat rep : List Char)
    (hp : pat ≠ []) (h : containsSeg l pat = true) :
    containsSeg (replaceAll l pat rep) rep = true :=
  containsSeg_replaceAllAux_rep pat rep hp l.length l le_rfl h

/-- C5: a curated-rRNA (CRW) hit row whose status token is `FAIL` is
relabelled with the library's source label: the aggregated row contains
`CRW` and no longer contains the raw `FAIL` token.  The hypotheses pin
down the branch the source takes for the CRW stage folder (its path
contains `crw` and not `gtrnadb`) and the shape of a `FAIL` row (it
carries no `PASS` token). -/
theorem crw_fail_relabelled (folder line : List Char)
    (hgt : containsSeg folder gtrnadbTok = false)
    (hcrw : containsSeg folder crwTok = true)
    (hfail : containsSeg line failTok = true)
    (hpass : containsSeg line passTok = false) :
    containsSeg (relabelLine folder line) failTok = false ∧
      containsSeg (relabelLine folder line) crwLabel = true := by
  have hbranch : relabelLine folder line =
      replaceAll (replaceAll line passTok crwLabel) failTok crwLabel := by
    rw [relabelLine, if_neg (by simp [hgt]), if_pos (by simp [hcrw])]
  rw [hbranch, replaceAll_of_not_contains line passTok crwLabel hpass]
  constructor
  · exact containsSeg_replaceAll_self line failTok crwLabel
      (by decide) (by decide) (by decide)
  · exact containsSeg_replaceAll_rep line failTok crwLabel (by decide) hfail

/-- Witness for C5: a concrete CRW `hits.txt` row with status `FAIL`. -/
theorem crw_fail_relabelled_witness :
    containsSeg "temp/crw".toList gtrnadbTok = false ∧
      containsSeg "temp/crw".toList crwTok = true ∧
      containsSeg "URS0000Q9number\td.5.b.E.coli\tFAIL\n".toList failTok = true ∧
      containsSeg "URS0000Q9number\td.5.b.E.coli\tFAIL\n".toList passTok = false ∧
      (containsSeg
          (relabelLine "temp/crw".toList
            "URS0000Q9number\td.5.b.E.coli\tFAIL\n".toList) failTok = false ∧
        containsSeg
          (relabelLine "temp/crw".toList
            "URS0000Q9number\td.5.b.E.coli\tFAIL\n".toList) crwLabel = true) :=
  ⟨by decide, by decide, by decide, by decide,
    crw_fail_relabelled _ _ (by decide) (by decide) (by decide) (by decide)⟩

/-! ## Thumbnail generator (`generate_thumbnail`, lines 753-788)

The generator scans the SVG text line by line.  `re.findall`/
`re.finditer` are embedded as deterministic scanners: for the patterns
used in the source (literal text followed by `\d+(\.\d+)?`, and the lazy
`.*?</text>` tail) maximal-munch parsing coincides with the regex
semantics, because the character after an optional fractional part must
be a literal that is neither a digit nor a dot.  The scan over
non-overlapping matches consumes at least one character per step, so it
is phrased with a fuel argument instantiated with the line length.
Errors of the Python code (`width`/`height` unbound or without a match
at the final f-string, or the `None` move-to prefix concatenated into
the path when no point was recorded) are modelled as `none`. -/

def takeDigits : List Char → List Char × List Char
  | [] => ([], [])
  | c :: rest =>
    if c.isDigit then
      let p := takeDigits rest
      (c :: p.1, p.2)
    else ([], c :: rest)

/-- Parse `(\d+)(\.\d+)?`, returning the integer-part digits (the group
the source keeps for coordinates) and the remaining text after the
optional fractional part. -/
def parseCoord (l : List Char) : Option (List Char × List Char) :=
  let p := takeDigits l
  if p.1.isEmpty then none
  else
    match p.2 with
    | '.' :: r2 =>
      let q := takeDigits r2
      if q.1.isEmpty then some (p.1, p.2) else some (p.1, q.2)
    | _ => some (p.1, p.2)

/-- Parse `(\d+(\.\d+)?)`, returning the full matched number (the group
the source keeps for `width`/`height`) and the remaining text. -/
def parseNumber (l : List Char) : Option (List Char × List Char) :=
  let p := takeDigits l
  if p.1.isEmpty then none
  else
    match p.2 with
    | '.' :: r2 =>
      let q := takeDigits r2
      if q.1.isEmpty then some (p.1, p.2)
      else some (p.1 ++ '.' :: q.1, q.2)
    | _ => some (p.1, p.2)

def closeTok : List Char := "</text>".toList

/-- The lazy `.*?</text>`: the text after the earliest closing tag. -/
def findClose : List Char → Option (List Char)
  | [] => none
  | c :: rest =>
    if startsWithSeg (c :: rest) closeTok then
      some ((c :: rest).drop closeTok.length)
    else findClose rest

def textOpenTok : List Char := "<text x=\"".toList

def yTok : List Char := "\" y=\"".toList

/-- One attempted match of
`<text x="(\d+)(\.\d+)?" y="(\d+)(\.\d+)?".*?</text>` at the head of
`l`; yields the x and y integer-part groups, the whole matched block
(group 0), and the text after the match. -/
def tryMatchText (l : List Char) :
    Option ((List Char × List Char) × List Char × List Char) :=
  if startsWithSeg l textOpenTok then
    match parseCoord (l.drop textOpenTok.length) with
    | none => none
    | some (x, r1) =>
      if startsWithSeg r1 yTok then
        match parseCoord (r1.drop yTok.length) with
        | none => none
        | some (y, r2) =>
          match r2 with
          | '"' :: r3 =>
            match findClose r3 with
            | none => none
            | some rest => some ((x, y), l.take (l.length - rest.length), rest)
          | _ => none
      else none
  else none

/-- `re.finditer` over one line: all non-overlapping matches in order,
each as (coordinate groups, group 0). -/
def scanTextAux : Nat → List Char → List ((List Char × List Char) × List Char)
  | 0, _ => []
  | _ + 1, [] => []
  | fuel + 1, c :: rest =>
    match tryMatchText (c :: rest) with
    | some (xy, g0, after) => (xy, g0) :: scanTextAux fuel after
    | none => scanTextAux fuel rest

def scanTextBlocks (l : List Char) :
    List ((List Char × List Char) × List Char) :=
  scanTextAux l.length l

def widthPat : List Char := "width=\"".toList

def heightPat : List Char := "height=\"".toList

/-- First match of `pat` + number + closing quote at this position. -/
def matchNumAt (pat l : List Char) : Option (List Char) :=
  if startsWithSeg l pat then
    match parseNumber (l.drop pat.length) with
    | some (num, '"' :: _) => some num
    | _ => none
  else none

/-- The first group of `re.findall(pat + number-pattern, line)`; `none`
when the list of matches is empty. -/
def findNum (pat : List Char) : List Char → Option (List Char)
  | [] => none
  | c :: rest =>
    match matchNumAt pat (c :: rest) with
    | some num => some num
    | none => findNum pat rest

/-- Python's `text.split("\n")`. -/
def splitLines : List Char → List (List Char)
  | [] => [[]]
  | c :: rest =>
    if c = '\n' then [] :: splitLines rest
    else
      match splitLines rest with
      | [] => [[c]]
      | h :: t => (c :: h) :: t

/-- The loop state of `generate_thumbnail`: `moveTo` is
`move_to_start_position` (initially `None`), `widthV`/`heightV` model the
`width`/`height` variables (`none` = never assigned; `some none` =
assigned an empty match list; `some (some w)` = first match `w`), and
`points` is the accumulated list of `L{x} {y}` strings. -/
structure ThumbState where
  moveTo : Option (List Char)
  widthV : Option (Option (List Char))
  heightV : Option (Option (List Char))
  points : List (List Char)
  deriving DecidableEq

def initState : ThumbState := ⟨none, none, none, []⟩

def moveToStr (x y : List Char) : List Char :=
  'M' :: (x ++ ' ' :: (y ++ [' ']))

def lineToStr (x y : List Char) : List Char :=
  'L' :: (x ++ ' ' :: y)

def numberingTok : List Char := "numbering-label".toList

/-- The body of the `for nt_block in re.finditer(...)` loop (lines
766-770): skip numbering labels, set the move-to origin at the first
recorded point, and append every recorded point (the first included) to
the line-to list. -/
def recordBlock (s : ThumbState)
    (b : (List Char × List Char) × List Char) : ThumbState :=
  if containsSeg b.2 numberingTok then s
  else
    let s1 := if s.moveTo.isNone then
        { s with moveTo := some (moveToStr b.1.1 b.1.2) }
      else s
    { s1 with points := s1.points ++ [lineToStr b.1.1 b.1.2] }

def widthWordTok : List Char := "width".toList

def strokeWidthWordTok : List Char := "stroke-width".toList

def heightWordTok : List Char := "height".toList

/-- The `width`/`height` re-assignments at the top of the line loop
(lines 759-762). -/
def setWidthHeight (s : ThumbState) (line : List Char) : ThumbState :=
  let s1 := if containsSeg line widthWordTok &&
      !(containsSeg line strokeWidthWordTok) then
      { s with widthV := some (findNum widthPat line) }
    else s
  if containsSeg line heightWordTok then
    { s1 with heightV := some (findNum heightPat line) }
  else s1

/-- One iteration of the `for _, line in enumerate(image.split("\n"))`
loop. -/
def processLine (s : ThumbState) (line : List Char) : ThumbState :=
  (scanTextBlocks line).foldl recordBlock (setWidthHeight s line)

def thumbFoldState (image : List Char) : ThumbState :=
  (splitLines image).foldl processLine initState

/-- Stroke width chosen from the number of recorded points
(lines 771-778). -/
def strokeWidth (n : Nat) : List Char :=
  if n < 200 then ['3']
  else if n < 500 then ['4']
  else if n < 3000 then ['4']
  else ['2']

/-- Python's `" ".join`. -/
def joinSpace : List (List Char) → List Char
  | [] => []
  | [p] => p
  | p :: ps => p ++ ' ' :: joinSpace ps

def svgOpenSeg : List Char :=
  "<svg xmlns=\"http://www.w3.org/2000/svg\" width=\"".toList

def heightMidSeg : List Char := "\" height=\"".toList

def pathOpenSeg : List Char := "\"><path style=\"stroke:".toList

def strokeMidSeg : List Char := ";stroke-width:".toList

def strokeEndSeg : List Char := "px;fill:none;\" d=\"".toList

def svgEndSeg : List Char := "\"/></svg>".toList

/-- `generate_thumbnail(image, description)` with the color string
already computed: scans the document, then assembles the thumbnail SVG.
`none` models the run raising an exception (unbound or empty
`width`/`height`, or the `None` move-to prefix when no point was
recorded). -/
def generateThumbnail (image color : List Char) : Option (List Char) :=
  let st := thumbFoldState image
  match st.widthV, st.heightV, st.moveTo with
  | some (some w), some (some h), some m =>
    some (svgOpenSeg ++ w ++ heightMidSeg ++ h ++ pathOpenSeg ++ color ++
      strokeMidSeg ++ strokeWidth st.points.length ++ strokeEndSeg ++
      m ++ joinSpace st.points ++ svgEndSeg)
  | _, _, _ => none

/-- `generate_thumbnail` as called in `organise_results`: the color is
`ColorHash(description).hex`, the external colorhash library appearing
as the function parameter `colorHash`. -/
def generateThumbnailFull (colorHash : List Char → List Char)
    (image description : List Char) : Option (List Char) :=
  generateThumbnail image (colorHash description)

/-- C6: the thumbnail stroke width depends only on the number `n` of
recorded qualifying points, through the thresholds of lines 771-778:
`n < 200` gives `"3"`, `200 ≤ n < 500` gives `"4"`, `500 ≤ n < 3000`
gives `"4"`, and `3000 ≤ n` gives `"2"`.  (`generateThumbnail` embeds
exactly `strokeWidth st.points.length` into the output document.) -/
theorem stroke_width_thresholds (n : ℕ) :
    (n < 200 → strokeWidth n = ['3']) ∧
      (200 ≤ n → n < 500 → strokeWidth n = ['4']) ∧
      (500 ≤ n → n < 3000 → strokeWidth n = ['4']) ∧
      (3000 ≤ n → strokeWidth n = ['2']) := by
  refine ⟨fun h => ?_, fun h1 h2 => ?_, fun h1 h2 => ?_, fun h => ?_⟩
  · rw [strokeWidth, if_pos h]
  · rw [strokeWidth, if_neg (by omega), if_pos h2]
  · rw [strokeWidth, if_neg (by omega), if_neg (by omega), if_pos h2]
  · rw [strokeWidth, if_neg (by omega), if_neg (by omega), if_neg (by omega)]

/-- Witness for C6: the scenario point counts, 150 points give width
`"3"` and 3500 points give width `"2"`. -/
theorem stroke_width_thresholds_witness :
    (150 < 200 ∧ strokeWidth 150 = ['3']) ∧
      (3000 ≤ 3500 ∧ strokeWidth 3500 = ['2']) :=
  ⟨⟨by decide, (stroke_width_thresholds 150).1 (by decide)⟩,
    ⟨by decide, (stroke_width_thresholds 3500).2.2.2 (by decide)⟩⟩

/-- C7 evaluation: on a diagram document with width and height but no
text-label coordinate points, `generate_thumbnail` does not return an
empty-but-valid thumbnail — the run fails (`move_to_start_position` is
still `None` when concatenated into the path, a `TypeError`), modelled
here as `none`. -/
theorem generate_thumbnail_no_points_fails :
    generateThumbnail "<svg width=\"100\" height=\"100\"></svg>".toList
        "#aabbcc".toList = none ∧
      (thumbFoldState
        "<svg width=\"100\" height=\"100\"></svg>".toList).points = [] := by
  decide

/-- C9: the thumbnail generator is deterministic — two runs over the
same diagram document and the same artifact description (with the same
colorhash function at the library seam) produce identical output
documents, path data and hash-derived color included. -/
theorem generate_thumbnail_deterministic
    (colorHash : List Char → List Char) (img1 img2 desc1 desc2 : List Char)
    (himg : img1 = img2) (hdesc : desc1 = desc2) :
    generateThumbnailFull colorHash img1 desc1 =
      generateThumbnailFull colorHash img2 desc2 := by
  rw [himg, hdesc]

/-- Witness for C9: two textually identical runs over a concrete
document. -/
theorem generate_thumbnail_deterministic_witness :
    generateThumbnailFull (fun _ => "#aabbcc".toList)
        "<svg width=\"10\" height=\"20\">\n<text x=\"5\" y=\"6\">A</text>".toList
        "seq.colored.svg".toList =
      generateThumbnailFull (fun _ => "#aabbcc".toList)
        "<svg width=\"10\" height=\"20\">\n<text x=\"5\" y=\"6\">A</text>".toList
        "seq.colored.svg".toList :=
  generate_thumbnail_deterministic (fun _ => "#aabbcc".toList) _ _ _ _ rfl rfl

/-- The qualifying coordinate points of one line, in match order: the
coordinate groups of every text block not carrying a numbering
label. -/
def linePoints (line : List Char) : List (List Char × List Char) :=
  ((scanTextBlocks line).filter fun b =>
    !(containsSeg b.2 numberingTok)).map fun b => b.1

/-- The qualifying coordinate points of a list of lines, in document
encounter order. -/
def qualifyingPoints : List (List Char) → List (List Char × List Char)
  | [] => []
  | line :: rest => linePoints line ++ qualifyingPoints rest

def qualifyingPointsOf (image : List Char) : List (List Char × List Char) :=
  qualifyingPoints (splitLines image)

theorem setWidthHeight_points (s : ThumbState) (line : List Char) :
    (setWidthHeight s line).points = s.points := by
  rw [setWidthHeight]
  split <;> split <;> rfl

theorem setWidthHeight_moveTo (s : ThumbState) (line : List Char) :
    (setWidthHeight s line).moveTo = s.moveTo := by
  rw [setWidthHeight]
  split <;> split <;> rfl

theorem recordBlock_fold_inv
    (blocks : List ((List Char × List Char) × List Char)) :
    ∀ (s : ThumbState) (acc : List (List Char × List Char)),
      s.points = acc.map (fun p => lineToStr p.1 p.2) →
      s.moveTo = acc.head?.map (fun p => moveToStr p.1 p.2) →
      (blocks.foldl recordBlock s).points =
          (acc ++ (blocks.filter fun b =>
            !(containsSeg b.2 numberingTok)).map fun b => b.1).map
            (fun p => lineToStr p.1 p.2) ∧
        (blocks.foldl recordBlock s).moveTo =
          (acc ++ (blocks.filter fun b =>
            !(containsSeg b.2 numberingTok)).map fun b => b.1).head?.map
            (fun p => moveToStr p.1 p.2) := by
  induction blocks with
  | nil => intro s acc hp hm; simpa using ⟨hp, hm⟩
  | cons b bs ih =>
    intro s acc hp hm
    by_cases hc : containsSeg b.2 numberingTok = true
    · have hskip : recordBlock s b = s := by
        rw [recordBlock, if_pos hc]
      have hfilter : (b :: bs).filter
          (fun b => !(containsSeg b.2 numberingTok)) =
          bs.filter (fun b => !(containsSeg b.2 numberingTok)) := by
        rw [List.filter_cons_of_neg (by simp [hc])]
      rw [List.foldl_cons, hskip, hfilter]
      exact ih s acc hp hm
    · have hc' : containsSeg b.2 numberingTok = false :=
        Bool.not_eq_true _ ▸ (by simpa using hc)
      have hfilter : (b :: bs).filter
          (fun b => !(containsSeg b.2 numberingTok)) =
          b :: bs.filter (fun b => !(containsSeg b.2 numberingTok)) := by
        rw [List.filter_cons_of_pos (by simp [hc'])]
      rw [List.foldl_cons, hfilter]
      cases acc with
      | nil =>
        have hmt : s.moveTo = none := by simpa using hm
        have hrec : recordBlock s b =
            { s with
                moveTo := some (moveToStr b.1.1 b.1.2)
                points := s.points ++ [lineToStr b.1.1 b.1.2] } := by
          rw [recordBlock, if_neg (by simp [hc']), if_pos (by simp [hmt])]
        rw [hrec]
        have hp' : ({ s with
            moveTo := some (moveToStr b.1.1 b.1.2)
            points := s.points ++ [lineToStr b.1.1 b.1.2] } :
              ThumbState).points =
            ([b.1] : List (List Char × List Char)).map
              (fun p => lineToStr p.1 p.2) := by
          simp [hp]
        have hm' : ({ s with
            moveTo := some (moveToStr b.1.1 b.1.2)
            points := s.points ++ [lineToStr b.1.1 b.1.2] } :
              ThumbState).moveTo =
            ([b.1] : List (List Char × List Char)).head?.map
              (fun p => moveToStr p.1 p.2) := by
          simp
        simpa using ih _ [b.1] hp' hm'
      | cons p acc' =>
        have hmt : s.moveTo.isNone = false := by
          rw [hm]
          rfl
        have hrec : recordBlock s b =
            { s with points := s.points ++ [lineToStr b.1.1 b.1.2] } := by
          rw [recordBlock, if_neg (by simp [hc']), if_neg (by simp [hmt])]
        rw [hrec]
        have hp' : ({ s with
            points := s.points ++ [lineToStr b.1.1 b.1.2] } :
              ThumbState).points =
            ((p :: acc') ++ [b.1]).map (fun p => lineToStr p.1 p.2) := by
          simp [hp]
        have hm' : ({ s with
            points := s.points ++ [lineToStr b.1.1 b.1.2] } :
              ThumbState).moveTo =
            ((p :: acc') ++ [b.1]).head?.map
              (fun p => moveToStr p.1 p.2) := by
          simpa using hm
        have := ih _ ((p :: acc') ++ [b.1]) hp' hm'
        simpa [List.append_assoc] using this

theorem processLine_inv (line : List Char) (s : ThumbState)
    (acc : List (List Char × List Char))
    (hp : s.points = acc.map (fun p => lineToStr p.1 p.2))
    (hm : s.moveTo = acc.head?.map (fun p => moveToStr p.1 p.2)) :
    (processLine s line).points =
        (acc ++ linePoints line).map (fun p => lineToStr p.1 p.2) ∧
      (processLine s line).moveTo =
        (acc ++ linePoints line).head?.map (fun p => moveToStr p.1 p.2) := by
  rw [processLine]
  exact recordBlock_fold_inv (scanTextBlocks line) (setWidthHeight s line)
    acc (by rw [setWidthHeight_points, hp]) (by rw [setWidthHeight_moveTo, hm])

theorem foldl_processLine_inv (lines : List (List Char)) :
    ∀ (s : ThumbState) (acc : List (List Char × List Char)),
      s.points = acc.map (fun p => lineToStr p.1 p.2) →
      s.moveTo = acc.head?.map (fun p => moveToStr p.1 p.2) →
      (lines.foldl processLine s).points =
          (acc ++ qualifyingPoints lines).map (fun p => lineToStr p.1 p.2) ∧
        (lines.foldl processLine s).moveTo =
          (acc ++ qualifyingPoints lines).head?.map
            (fun p => moveToStr p.1 p.2) := by
  induction lines with
  | nil => intro s acc hp hm; simpa [qualifyingPoints] using ⟨hp, hm⟩
  | cons line rest ih =>
    intro s acc hp hm
    rw [List.foldl_cons]
    obtain ⟨hp', hm'⟩ := processLine_inv line s acc hp hm
    have := ih (processLine s line) (acc ++ linePoints line) hp' hm'
    simpa [qualifyingPoints, List.append_assoc] using this

/-- C8 (amended): qualifying coordinate points are recorded in document
encounter order, without reordering or deduplication; the first recorded
point becomes the move-to origin, and every recorded point — the first
included, not only the subsequent ones — becomes a line-to segment in
encounter order. -/
theorem thumbnail_points_encounter_order (image : List Char) :
    (thumbFoldState image).points =
        (qualifyingPointsOf image).map (fun p => lineToStr p.1 p.2) ∧
      (thumbFoldState image).moveTo =
        (qualifyingPointsOf image).head?.map (fun p => moveToStr p.1 p.2) := by
  have := foldl_processLine_inv (splitLines image) initState [] rfl rfl
  simpa [thumbFoldState, qualifyingPointsOf] using this

/-- Counterexample to C8 as stated: on a diagram with exactly one
qualifying point, the claim's "only the subsequent points become
line-to segments" predicts a path with no `L` segment, but the source
appends the first point to the line-to list too: the emitted path data
is `M5 6 L5 6`. -/
theorem thumbnail_first_point_also_lineto :
    qualifyingPointsOf
        "<svg width=\"10\" height=\"20\">\n<text x=\"5\" y=\"6\">A</text>".toList =
        [(['5'], ['6'])] ∧
      generateThumbnail
        "<svg width=\"10\" height=\"20\">\n<text x=\"5\" y=\"6\">A</text>".toList
        "#aabbcc".toList =
        some ("<svg xmlns=\"http://www.w3.org/2000/svg\" width=\"10\" height=\"20\"><path style=\"stroke:#aabbcc;stroke-width:3px;fill:none;\" d=\"M5 6 L5 6\"/></svg>".toList) := by
  decide
